import Mathlib

/-!
Shallow embedding of the FIT-to-CSV converter (src/main.py).

Modelling choices:
- Instants (Python datetime values) are modelled as integers (Int);
  datetimes are totally ordered, and only order and difference matter here.
- Durations (seconds) are modelled as integers.
- A numeric-or-not optional field (total_timer_time, total_elapsed_time, whose
  presence is tested with isinstance(x, (int, float)) in the source) is
  modelled by `FieldVal`: absent, numeric, or present-but-non-numeric.
- The Python keyword argument default of safe_val is None; field access on a
  message is modelled directly by the Option-valued structure fields.
- list.sort with key (lap_start_time or 0) is Python Timsort: a stable sort
  on the key values.  A datetime is always truthy, so the key of a lap with a
  present start is that datetime, and the key of a lap with an absent start
  is the int 0.  An int and a datetime do not compare in Python 3, so as soon
  as the key list holds both kinds (the lap list mixes present and absent
  start times and hence has length at least two) the sort raises TypeError:
  any comparison sort must compare some pair across the two kinds to order
  them.  When the keys are homogeneous the sort is a stable ascending sort
  by key, modelled by the canonical stable sort List.insertionSort; in the
  all-absent case every key is 0 and in the all-present case the key is the
  start instant, so comparing (lap_start_time.getD 0) coincides with the
  Python key comparison in both homogeneous cases.  collect_laps therefore
  returns Except: .error () models the TypeError escaping the run.
-/

namespace FitToCSV

/-- An optional message field whose uses guard on numeric type:
absent (get_value returned None), numeric, or present but non-numeric. -/
inductive FieldVal where
  | absent
  | num (x : Int)
  | other
deriving DecidableEq, Repr

/-- isinstance(x, (int, float)) on a field value. -/
def FieldVal.isNumeric : FieldVal → Bool
  | num _ => true
  | _ => false

/-- A decoded lap message, fields as read through safe_val in collect_laps. -/
structure LapMsg where
  start_time : Option Int
  total_timer_time : FieldVal
  total_elapsed_time : FieldVal
  timestamp : Option Int
  avg_power : Option Int
  avg_heart_rate : Option Int
  avg_cadence : Option Int
  total_distance : Option Int
deriving DecidableEq, Repr

/-- A lap summary dict as built by collect_laps. -/
structure Lap where
  lap_index : Nat
  lap_start_time : Option Int
  lap_end_time : Option Int
  lap_duration_s : Option Int
  lap_avg_power : Option Int
  lap_avg_heart_rate : Option Int
  lap_avg_cadence : Option Int
  lap_total_distance_m : Option Int
deriving DecidableEq, Repr

/-- The loop body of collect_laps for one enumerated lap message:
end-time fallback chain (timer time, then elapsed time, then the lap
message's own timestamp) and duration fallback chain (timer time, then
elapsed time, then end minus start, else absent).  `i` is the 0-based
enumeration position, so lap_index is i + 1. -/
def lapOfMsg (i : Nat) (m : LapMsg) : Lap :=
  let start := m.start_time
  let endT : Option Int :=
    match start, m.total_timer_time with
    | some s, .num x => some (s + x)
    | _, _ =>
      match start, m.total_elapsed_time with
      | some s, .num x => some (s + x)
      | _, _ => m.timestamp
  let dur : Option Int :=
    match m.total_timer_time with
    | .num x => some x
    | _ =>
      match m.total_elapsed_time with
      | .num x => some x
      | _ =>
        match start, endT with
        | some s, some e => some (e - s)
        | _, _ => none
  { lap_index := i + 1
    lap_start_time := start
    lap_end_time := endT
    lap_duration_s := dur
    lap_avg_power := m.avg_power
    lap_avg_heart_rate := m.avg_heart_rate
    lap_avg_cadence := m.avg_cadence
    lap_total_distance_m := m.total_distance }

/-- The lap list in extraction order, before the sort at the end of
collect_laps. -/
def mkLaps (msgs : List LapMsg) : List Lap :=
  msgs.enum.map fun p => lapOfMsg p.1 p.2

/-- Comparison of the sort keys (lap_start_time or 0) of two laps, valid
whenever the two keys are of the same Python type (both datetimes, or both
the int sentinel 0). -/
def lapLe (a b : Lap) : Prop :=
  a.lap_start_time.getD 0 ≤ b.lap_start_time.getD 0

instance : DecidableRel lapLe := fun _ _ =>
  inferInstanceAs (Decidable (_ ≤ _))

instance : IsTotal Lap lapLe :=
  ⟨fun _ _ => Int.le_total _ _⟩

instance : IsTrans Lap lapLe :=
  ⟨fun _ _ _ h h2 => le_trans h h2⟩

/-- True when the lap list holds both a lap with an absent start time and a
lap with a present one, in which case the key list mixes the int 0 with a
datetime and Python list.sort raises TypeError. -/
def mixedStarts (laps : List Lap) : Bool :=
  laps.any (fun lap => lap.lap_start_time.isNone) &&
    laps.any (fun lap => lap.lap_start_time.isSome)

/-- collect_laps: build one Lap per message in input order with 1-based
lap_index, then sort by (lap_start_time or 0).  .error () is the TypeError
raised by the sort on a key list mixing the int sentinel with datetimes;
otherwise the stable ascending sort by key. -/
def collect_laps (msgs : List LapMsg) : Except Unit (List Lap) :=
  let laps := mkLaps msgs
  if mixedStarts laps then .error ()
  else .ok (laps.insertionSort lapLe)

/-- A (lap_index, start, end) triple as built from a sorted lap summary.
The end field is named stop because end is a Lean keyword. -/
structure Interval where
  lap_id : Nat
  start : Option Int
  stop : Option Int
deriving DecidableEq, Repr

/-- The while loop of map_record_to_lap_index, scanning the list suffix that
starts at absolute position i.  Returns the pair the function returns:
the matched lap_index (or none) and the final loop counter. -/
def scanLoop (t : Int) : List Interval → Nat → Option Nat × Nat
  | [], i => (none, i)
  | iv :: rest, i =>
    match iv.start, iv.stop with
    | some s, some e =>
      if s ≤ t ∧ t ≤ e then (some iv.lap_id, i)
      else if e < t then scanLoop t rest (i + 1)
      else (none, i)
    | some s, none =>
      if s ≤ t then (some iv.lap_id, i)
      else scanLoop t rest (i + 1)
    | none, _ => scanLoop t rest (i + 1)

/-- The clamp max(0, min(cur_idx, n - 1)) applied to the cursor at call
start, as a natural-number index. -/
def clampIdx (cur_idx : Int) (n : Nat) : Nat :=
  (max 0 (min cur_idx ((n : Int) - 1))).toNat

/-- map_record_to_lap_index(ts, lap_intervals, cur_idx): if the timestamp is
absent or the interval list empty, return (none, cur_idx) unchanged;
otherwise clamp the cursor into [0, n-1] and run the forward scan. -/
def map_record_to_lap_index (ts : Option Int) (lap_intervals : List Interval)
    (cur_idx : Int) : Option Nat × Int :=
  match ts, lap_intervals with
  | none, _ => (none, cur_idx)
  | some _, [] => (none, cur_idx)
  | some t, iv :: rest =>
    let i := clampIdx cur_idx (iv :: rest).length
    let r := scanLoop t ((iv :: rest).drop i) i
    (r.1, (r.2 : Int))

/-- A decoded record message, fields as read through safe_val in
write_records_csv. -/
structure RecordMsg where
  timestamp : Option Int
  power : Option Int
  heart_rate : Option Int
  cadence : Option Int
  distance : Option Int
deriving DecidableEq, Repr

/-- The record loop of write_records_csv: classify each record in stream
order, threading the cursor ptr from one call to the next, pairing each
record with its assigned lap_index. -/
def classifyAll : List RecordMsg → List Interval → Int → List (RecordMsg × Option Nat)
  | [], _, _ => []
  | r :: rs, l, ptr =>
    let p := map_record_to_lap_index r.timestamp l ptr
    (r, p.1) :: classifyAll rs l p.2

/-- One serialized cell: an empty field for an absent value. -/
def formatCell (v : Option Int) : String :=
  match v with
  | none => ""
  | some x => toString x

/-- The fixed header row of the records table. -/
def recordsHeader : List String :=
  ["timestamp", "power", "heart_rate", "cadence", "distance_m", "lap_index"]

/-- One data row of the records table: the record fields in schema order
followed by the assigned lap_index. -/
def recordRow (r : RecordMsg) (lap : Option Nat) : List String :=
  [formatCell r.timestamp, formatCell r.power, formatCell r.heart_rate,
   formatCell r.cadence, formatCell r.distance,
   formatCell (lap.map fun k => (k : Int))]

/-- write_records_csv as the list of rows it writes: the header row, then
one data row per record message in stream order, the cursor starting at 0. -/
def write_records_csv (msgs : List RecordMsg) (lap_intervals : List Interval) :
    List (List String) :=
  recordsHeader :: (classifyAll msgs lap_intervals 0).map fun p => recordRow p.1 p.2

/-- Membership of a timestamp in an interval, as the scan tests it: inside
both bounds inclusively when both are present, at or after the start when
only the start is present, never when the start is absent. -/
def memI (u : Int) (iv : Interval) : Prop :=
  match iv.start, iv.stop with
  | some s, some e => s ≤ u ∧ u ≤ e
  | some s, none => s ≤ u
  | none, _ => False

/-- Start-key order between intervals: an absent start sorts first. -/
def startLe (a b : Interval) : Prop :=
  match a.start, b.start with
  | none, _ => True
  | some _, none => False
  | some x, some y => x ≤ y

/-- Two intervals are disjoint when no timestamp is a member of both. -/
def IvDisjoint (a b : Interval) : Prop :=
  ∀ u : Int, ¬ (memI u a ∧ memI u b)

/-- The interval list is sorted by start and pairwise non-overlapping. -/
def SortedNO (l : List Interval) : Prop :=
  l.Pairwise fun a b => startLe a b ∧ IvDisjoint a b

/-- A well-formed interval: when both bounds are present, start ≤ end. -/
def WFI (iv : Interval) : Prop :=
  ∀ a b, iv.start = some a → iv.stop = some b → a ≤ b

/-- The scan advances past an interval for timestamp t: no start, or both
bounds present with end < t, or open-ended with t before the start. -/
def passes (t : Int) (iv : Interval) : Prop :=
  iv.start = none ∨
    (∃ s e, iv.start = some s ∧ iv.stop = some e ∧ e < t) ∨
    (∃ s, iv.start = some s ∧ iv.stop = none ∧ t < s)

/-- The scan can return some lap at an interval: the match condition. -/
def matchCond (t : Int) (iv : Interval) : Prop :=
  (∃ s e, iv.start = some s ∧ iv.stop = some e ∧ s ≤ t ∧ t ≤ e) ∨
    (∃ s, iv.start = some s ∧ iv.stop = none ∧ s ≤ t)

/-! ### Lemmas about the scan loop -/

/-- The loop counter never moves backwards and never goes past the end of
the remaining list. -/
theorem scanLoop_cursor_bounds (t : Int) :
    ∀ (rest : List Interval) (i : Nat),
      i ≤ (scanLoop t rest i).2 ∧ (scanLoop t rest i).2 ≤ i + rest.length
  | [], i => by simp [scanLoop]
  | iv :: rest, i => by
    rcases hs : iv.start with _ | s
    · have h := scanLoop_cursor_bounds t rest (i + 1)
      simp only [scanLoop, hs, List.length_cons]
      omega
    · rcases he : iv.stop with _ | e
      · by_cases hm : s ≤ t
        · simp [scanLoop, hs, he, hm]
        · have h := scanLoop_cursor_bounds t rest (i + 1)
          simp only [scanLoop, hs, he, hm, if_false, List.length_cons]
          omega
      · by_cases h1 : s ≤ t ∧ t ≤ e
        · simp [scanLoop, hs, he, h1]
        · by_cases h2 : e < t
          · have h := scanLoop_cursor_bounds t rest (i + 1)
            simp only [scanLoop, hs, he, h1, if_false, h2, if_true, List.length_cons]
            omega
          · simp [scanLoop, hs, he, h1, h2]

/-- If no interval of the remaining list satisfies the match condition, the
scan returns none. -/
theorem scanLoop_none_of_no_match (t : Int) :
    ∀ (rest : List Interval) (i : Nat),
      (∀ iv ∈ rest, ¬ matchCond t iv) → (scanLoop t rest i).1 = none
  | [], i, _ => by simp [scanLoop]
  | iv :: rest, i, hno => by
    have hiv : ¬ matchCond t iv := hno iv (List.mem_cons_self iv rest)
    have htail : ∀ iv2 ∈ rest, ¬ matchCond t iv2 :=
      fun iv2 h2 => hno iv2 (List.mem_cons_of_mem iv h2)
    rcases hs : iv.start with _ | s
    · simp only [scanLoop, hs]
      exact scanLoop_none_of_no_match t rest (i + 1) htail
    · rcases he : iv.stop with _ | e
      · have hm : ¬ s ≤ t := fun h => hiv (Or.inr ⟨s, hs, he, h⟩)
        simp only [scanLoop, hs, he, hm, if_false]
        exact scanLoop_none_of_no_match t rest (i + 1) htail
      · have h1 : ¬ (s ≤ t ∧ t ≤ e) := fun h => hiv (Or.inl ⟨s, e, hs, he, h.1, h.2⟩)
        by_cases h2 : e < t
        · simp only [scanLoop, hs, he, h1, if_false, h2, if_true]
          exact scanLoop_none_of_no_match t rest (i + 1) htail
        · simp [scanLoop, hs, he, h1, h2]

/-- If every interval strictly before position k lets the scan pass, and the
interval at k has both bounds present and contains t, then the scan started
at any position at most k returns that lap_index with counter k. -/
theorem scanLoop_reaches (t : Int) (l : List Interval) (k : Nat)
    (hk : k < l.length) (lid : Nat) (s e : Int)
    (hget : l.get ⟨k, hk⟩ = ⟨lid, some s, some e⟩) (hs : s ≤ t) (he : t ≤ e)
    (hpass : ∀ j (hj : j < l.length), j < k → passes t (l.get ⟨j, hj⟩)) :
    ∀ i, i ≤ k → scanLoop t (l.drop i) i = (some lid, k) := by
  intro i hi
  obtain ⟨d, hd⟩ : ∃ d, k - i = d := ⟨_, rfl⟩
  induction d generalizing i with
  | zero =>
    have hik : i = k := by omega
    subst hik
    rw [List.drop_eq_getElem_cons hk]
    have hg : l[i] = ⟨lid, some s, some e⟩ := hget
    rw [hg]
    simp [scanLoop, hs, he]
  | succ d ih =>
    have hik : i < k := by omega
    have hil : i < l.length := by omega
    rw [List.drop_eq_getElem_cons hil]
    have hp : passes t (l.get ⟨i, hil⟩) := hpass i hil hik
    have hgi : l[i] = l.get ⟨i, hil⟩ := rfl
    rcases hp with hnone | ⟨s1, e1, hs1, he1, hlt⟩ | ⟨s1, hs1, he1, hlt⟩
    · rw [hgi]
      simp only [scanLoop, hnone]
      exact ih (i + 1) (by omega) (by omega)
    · have hne : ¬ (s1 ≤ t ∧ t ≤ e1) := by omega
      rw [hgi]
      simp only [scanLoop, hs1, he1, hne, if_false, hlt, if_true]
      exact ih (i + 1) (by omega) (by omega)
    · have hne : ¬ s1 ≤ t := by omega
      rw [hgi]
      simp only [scanLoop, hs1, he1, hne, if_false]
      exact ih (i + 1) (by omega) (by omega)

/-- A sorted, disjoint earlier interval lets the scan pass for any timestamp
that is a member of a later interval. -/
theorem passes_of_rel (a b : Interval) (t : Int) (hle : startLe a b)
    (hdisj : IvDisjoint a b) (hmem : memI t b) : passes t a := by
  rcases ha : a.start with _ | s1
  · exact Or.inl ha
  · rcases hb : b.start with _ | s2
    · exact absurd hle (by simp [startLe, ha, hb])
    · have hs12 : s1 ≤ s2 := by simpa [startLe, ha, hb] using hle
      have hs2t : s2 ≤ t := by
        rcases hbe : b.stop with _ | e2
        · simpa [memI, hb, hbe] using hmem
        · exact ((by simpa [memI, hb, hbe] using hmem : s2 ≤ t ∧ t ≤ e2)).1
      rcases hae : a.stop with _ | e1
      · exact absurd ⟨by simp only [memI, ha, hae]; omega, hmem⟩ (hdisj t)
      · by_cases hte : t ≤ e1
        · exact absurd ⟨by simp only [memI, ha, hae]; exact ⟨by omega, hte⟩, hmem⟩ (hdisj t)
        · exact Or.inr (Or.inl ⟨s1, e1, ha, hae, by omega⟩)

/-- Extract the start comparison from startLe when both starts are present. -/
theorem startLe_le {a b : Interval} {x y : Int} (hx : a.start = some x)
    (hy : b.start = some y) (h : startLe a b) : x ≤ y := by
  unfold startLe at h
  rw [hx, hy] at h
  exact h

/-- startLe forbids a present start before an absent one. -/
theorem startLe_none {a b : Interval} {x : Int} (hx : a.start = some x)
    (hy : b.start = none) (h : startLe a b) : False := by
  unfold startLe at h
  rw [hx, hy] at h
  exact h

/-- Introduce membership in a bounded interval. -/
theorem memI_intro_closed {iv : Interval} {s e u : Int} (hs : iv.start = some s)
    (he : iv.stop = some e) (h1 : s ≤ u) (h2 : u ≤ e) : memI u iv := by
  unfold memI
  rw [hs, he]
  exact ⟨h1, h2⟩

/-- Introduce membership in an open-ended interval. -/
theorem memI_intro_open {iv : Interval} {s u : Int} (hs : iv.start = some s)
    (he : iv.stop = none) (h1 : s ≤ u) : memI u iv := by
  unfold memI
  rw [hs, he]
  exact h1

/-- Unfolding of map_record_to_lap_index on a present timestamp and a
nonempty interval list: clamp the cursor and run the scan loop. -/
theorem map_record_eq_scan (t : Int) (l : List Interval) (c : Int)
    (hl : l ≠ []) :
    map_record_to_lap_index (some t) l c =
      ((scanLoop t (l.drop (clampIdx c l.length)) (clampIdx c l.length)).1,
        ((scanLoop t (l.drop (clampIdx c l.length)) (clampIdx c l.length)).2 : Int)) := by
  cases l with
  | nil => exact absurd rfl hl
  | cons iv rest => rfl

/-- The clamp lands at or before position k whenever the cursor is at most
k. -/
theorem clampIdx_le (c : Int) (n k : Nat) (hc : c ≤ (k : Int)) :
    clampIdx c n ≤ k := by
  unfold clampIdx
  omega

/-! ### Claims about the classifier -/

/-- C1: for every interval list sorted by start and pairwise
non-overlapping, when the interval at position k has both a start and an
end and start ≤ t ≤ end, map_record_to_lap_index on timestamp t with any
starting cursor at most k returns that lap_index and sets the returned
cursor to position k. -/
theorem C1_classify_inside (l : List Interval) (k : Nat) (hk : k < l.length)
    (hsno : SortedNO l) (lid : Nat) (s e t : Int)
    (hget : l.get ⟨k, hk⟩ = ⟨lid, some s, some e⟩) (hs : s ≤ t) (he : t ≤ e)
    (c : Int) (hc : c ≤ (k : Int)) :
    map_record_to_lap_index (some t) l c = (some lid, (k : Int)) := by
  have hne : l ≠ [] := by intro h; subst h; simp at hk
  rw [map_record_eq_scan t l c hne]
  have hpass : ∀ j (hj : j < l.length), j < k → passes t (l.get ⟨j, hj⟩) := by
    intro j hj hjk
    have hrel := List.pairwise_iff_get.mp hsno ⟨j, hj⟩ ⟨k, hk⟩ hjk
    refine passes_of_rel _ _ t hrel.1 hrel.2 ?_
    rw [hget]
    exact ⟨hs, he⟩
  rw [scanLoop_reaches t l k hk lid s e hget hs he hpass
    (clampIdx c l.length) (clampIdx_le c l.length k hc)]

/-- C1 witness: two concrete sorted, non-overlapping bounded intervals, a
timestamp inside the second, cursor starting at 0. -/
theorem C1_classify_inside_witness :
    SortedNO [⟨1, some 0, some 10⟩, ⟨2, some 20, some 30⟩] ∧
      map_record_to_lap_index (some 25)
        [⟨1, some 0, some 10⟩, ⟨2, some 20, some 30⟩] 0 = (some 2, 1) := by
  have hsno : SortedNO [⟨1, some 0, some 10⟩, ⟨2, some 20, some 30⟩] := by
    refine List.Pairwise.cons ?_ (List.Pairwise.cons (by simp) List.Pairwise.nil)
    intro b hb
    have hb2 : b = ⟨2, some 20, some 30⟩ := by simpa using hb
    subst hb2
    refine ⟨by norm_num [startLe], ?_⟩
    intro u h
    have h1 : (0 : Int) ≤ u ∧ u ≤ 10 := h.1
    have h2 : (20 : Int) ≤ u ∧ u ≤ 30 := h.2
    omega
  exact ⟨hsno,
    C1_classify_inside [⟨1, some 0, some 10⟩, ⟨2, some 20, some 30⟩] 1
      (by decide) hsno 2 20 30 25 rfl (by decide) (by decide) 0 (by decide)⟩

/-- C4: a lap message with a start but no numeric timer time, no numeric
elapsed time and no timestamp yields a lap with end none and duration none;
and when the scan position sits at an interval with a start but no end,
every timestamp at or after that start is returned immediately as a match
for that interval at that position. -/
theorem C4_open_ended (m : LapMsg) (i : Nat) (T0 : Int)
    (hst : m.start_time = some T0)
    (httt : m.total_timer_time.isNumeric = false)
    (htet : m.total_elapsed_time.isNumeric = false)
    (hts : m.timestamp = none)
    (l : List Interval) (k : Nat) (hk : k < l.length) (lid : Nat) (s t : Int)
    (hget : l.get ⟨k, hk⟩ = ⟨lid, some s, none⟩) (hs : s ≤ t) :
    (lapOfMsg i m).lap_end_time = none ∧ (lapOfMsg i m).lap_duration_s = none ∧
      map_record_to_lap_index (some t) l (k : Int) = (some lid, (k : Int)) := by
  refine ⟨?_, ?_, ?_⟩
  · rcases h1 : m.total_timer_time with _ | x | _ <;>
      rcases h2 : m.total_elapsed_time with _ | y | _ <;>
        simp_all [lapOfMsg, FieldVal.isNumeric]
  · rcases h1 : m.total_timer_time with _ | x | _ <;>
      rcases h2 : m.total_elapsed_time with _ | y | _ <;>
        simp_all [lapOfMsg, FieldVal.isNumeric]
  · have hne : l ≠ [] := by intro h; subst h; simp at hk
    have hcl : clampIdx (k : Int) l.length = k := by unfold clampIdx; omega
    rw [map_record_eq_scan t l _ hne, hcl, List.drop_eq_getElem_cons hk]
    have hg : l[k] = ⟨lid, some s, none⟩ := hget
    rw [hg]
    simp [scanLoop, hs]

/-- C4 witness: a lap message with start 100, non-numeric duration fields
and no timestamp; an open-ended interval starting at 10 matched by
timestamp 50 from cursor position 0. -/
theorem C4_open_ended_witness :
    (lapOfMsg 0 ⟨some 100, .absent, .other, none, none, none, none, none⟩).lap_end_time = none ∧
      (lapOfMsg 0 ⟨some 100, .absent, .other, none, none, none, none, none⟩).lap_duration_s = none ∧
      map_record_to_lap_index (some 50) [⟨1, some 10, none⟩] 0 = (some 1, 0) :=
  C4_open_ended ⟨some 100, .absent, .other, none, none, none, none, none⟩ 0 100
    rfl rfl rfl rfl [⟨1, some 10, none⟩] 0 (by decide) 1 10 50 rfl (by decide)

/-- C5: when the intervals up to position k are sorted and non-overlapping,
interval k has start s ≤ t and end exactly t, and interval k+1 starts at
the same instant t, map_record_to_lap_index on t with any cursor at most k
returns interval k's lap_index with the cursor at k: the inclusive end of
the earlier interval takes precedence over the next interval starting at
the same instant. -/
theorem C5_inclusive_end_wins (l : List Interval) (k : Nat)
    (hk1 : k + 1 < l.length) (hsno : SortedNO (l.take (k + 1)))
    (lid lid2 : Nat) (s t : Int) (e2 : Option Int)
    (hget : l.get ⟨k, by omega⟩ = ⟨lid, some s, some t⟩)
    (hget2 : l.get ⟨k + 1, hk1⟩ = ⟨lid2, some t, e2⟩)
    (hs : s ≤ t) (c : Int) (hc : c ≤ (k : Int)) :
    map_record_to_lap_index (some t) l c = (some lid, (k : Int)) := by
  have hk : k < l.length := by omega
  have hne : l ≠ [] := by intro h; subst h; simp at hk
  rw [map_record_eq_scan t l c hne]
  have hpass : ∀ j (hj : j < l.length), j < k → passes t (l.get ⟨j, hj⟩) := by
    intro j hj hjk
    have hjt : j < (l.take (k + 1)).length := by simp; omega
    have hkt : k < (l.take (k + 1)).length := by simp; omega
    have hrel := List.pairwise_iff_get.mp hsno ⟨j, hjt⟩ ⟨k, hkt⟩
      (Fin.mk_lt_mk.mpr hjk)
    have hgj : (l.take (k + 1)).get ⟨j, hjt⟩ = l.get ⟨j, hj⟩ := by
      simp [List.getElem_take]
    have hgk : (l.take (k + 1)).get ⟨k, hkt⟩ = l.get ⟨k, hk⟩ := by
      simp [List.getElem_take]
    rw [hgj, hgk] at hrel
    refine passes_of_rel _ _ t hrel.1 hrel.2 ?_
    have hgk2 : l.get ⟨k, hk⟩ = ⟨lid, some s, some t⟩ := hget
    rw [hgk2]
    exact ⟨hs, le_refl t⟩
  have hgk2 : l.get ⟨k, hk⟩ = ⟨lid, some s, some t⟩ := hget
  rw [scanLoop_reaches t l k hk lid s t hgk2 hs (le_refl t) hpass
    (clampIdx c l.length) (clampIdx_le c l.length k hc)]

/-- C5 witness: two touching intervals sharing the boundary instant 10; the
earlier interval wins. -/
theorem C5_inclusive_end_wins_witness :
    SortedNO ([⟨1, some 0, some 10⟩, ⟨2, some 10, some 20⟩].take 1) ∧
      map_record_to_lap_index (some 10)
        [⟨1, some 0, some 10⟩, ⟨2, some 10, some 20⟩] 0 = (some 1, 0) := by
  have hsno : SortedNO ([⟨1, some 0, some 10⟩, ⟨2, some 10, some 20⟩].take 1) := by
    simp only [List.take_succ_cons, List.take_zero]
    exact List.pairwise_singleton _ _
  exact ⟨hsno,
    C5_inclusive_end_wins [⟨1, some 0, some 10⟩, ⟨2, some 10, some 20⟩] 0
      (by decide) hsno 1 2 0 10 (some 20) rfl rfl (by decide) 0 (by decide)⟩

/-- C6: for a nonempty interval list sorted by start whose first interval
has a present start, any timestamp strictly before that start classifies to
none, from any cursor; and for a sorted, non-overlapping list of well-formed
intervals whose last interval has a present end, any timestamp strictly
after that end classifies to none, from any cursor. -/
theorem C6_outside_none :
    (∀ (l : List Interval) (s0 t c : Int) (h0 : 0 < l.length),
      l.Pairwise startLe → (l.get ⟨0, h0⟩).start = some s0 → t < s0 →
      (map_record_to_lap_index (some t) l c).1 = none) ∧
    (∀ (l : List Interval) (e t c : Int) (h0 : 0 < l.length),
      SortedNO l → (∀ iv ∈ l, WFI iv) →
      (l.get ⟨l.length - 1, by omega⟩).stop = some e → e < t →
      (map_record_to_lap_index (some t) l c).1 = none) := by
  constructor
  · intro l s0 t c h0 hsort hfirst ht
    have hne : l ≠ [] := by intro h; subst h; simp at h0
    rw [map_record_eq_scan t l c hne]
    apply scanLoop_none_of_no_match
    intro iv hiv hmc
    have hivl : iv ∈ l := List.mem_of_mem_drop hiv
    obtain ⟨⟨j, hj⟩, hget⟩ := List.mem_iff_get.mp hivl
    obtain ⟨s1, hsv, hst⟩ : ∃ s1, iv.start = some s1 ∧ s1 ≤ t := by
      rcases hmc with ⟨s1, e1, h1, _, h3, _⟩ | ⟨s1, h1, _, h3⟩
      · exact ⟨s1, h1, h3⟩
      · exact ⟨s1, h1, h3⟩
    rcases Nat.eq_zero_or_pos j with hj0 | hjpos
    · subst hj0
      have hsame : l.get ⟨0, hj⟩ = l.get ⟨0, h0⟩ := rfl
      rw [hsame] at hget
      rw [hget, hsv] at hfirst
      have : s1 = s0 := by simpa using hfirst
      omega
    · have hrel := List.pairwise_iff_get.mp hsort ⟨0, h0⟩ ⟨j, hj⟩
        (Fin.mk_lt_mk.mpr hjpos)
      rw [hget] at hrel
      have : s0 ≤ s1 := startLe_le hfirst hsv hrel
      omega
  · intro l e t c h0 hsno hwf hlast ht
    have hne : l ≠ [] := by intro h; subst h; simp at h0
    have hlastlt : l.length - 1 < l.length := by omega
    rw [map_record_eq_scan t l c hne]
    apply scanLoop_none_of_no_match
    intro iv hiv hmc
    have hivl : iv ∈ l := List.mem_of_mem_drop hiv
    obtain ⟨⟨j, hj⟩, hget⟩ := List.mem_iff_get.mp hivl
    by_cases hjl : j = l.length - 1
    · subst hjl
      have hsame : l.get ⟨l.length - 1, hj⟩ = l.get ⟨l.length - 1, hlastlt⟩ := rfl
      rw [hsame] at hget
      rw [hget] at hlast
      rcases hmc with ⟨s1, e1, _, h2, _, h4⟩ | ⟨s1, _, h2, _⟩
      · rw [hlast] at h2
        have he1 : e1 = e := by simpa using h2.symm
        omega
      · rw [hlast] at h2
        simp at h2
    · have hjlt : j < l.length - 1 := by omega
      have hrel := List.pairwise_iff_get.mp hsno ⟨j, hj⟩ ⟨l.length - 1, hlastlt⟩
        (Fin.mk_lt_mk.mpr hjlt)
      rw [hget] at hrel
      rcases hlaststart : (l.get ⟨l.length - 1, hlastlt⟩).start with _ | sl
      · rcases hmc with ⟨s1, e1, h1, _, _, _⟩ | ⟨s1, h1, _, _⟩ <;>
          exact startLe_none h1 hlaststart hrel.1
      · have hwl : sl ≤ e :=
          hwf (l.get ⟨l.length - 1, hlastlt⟩) (l.get_mem _ hlastlt) sl e hlaststart hlast
        have hmlast : memI sl (l.get ⟨l.length - 1, hlastlt⟩) :=
          memI_intro_closed hlaststart hlast (le_refl sl) hwl
        rcases hmc with ⟨s1, e1, h1, h2, h3, h4⟩ | ⟨s1, h1, h2, h3⟩
        · have hsl1 : s1 ≤ sl := startLe_le h1 hlaststart hrel.1
          exact hrel.2 sl ⟨memI_intro_closed h1 h2 hsl1 (by omega), hmlast⟩
        · have hsl1 : s1 ≤ sl := startLe_le h1 hlaststart hrel.1
          exact hrel.2 sl ⟨memI_intro_open h1 h2 hsl1, hmlast⟩

/-- C6 witness: a single bounded interval from 10 to 20; timestamps 5 and
25 both classify to none. -/
theorem C6_outside_none_witness :
    (map_record_to_lap_index (some 5) [⟨1, some 10, some 20⟩] 0).1 = none ∧
      (map_record_to_lap_index (some 25) [⟨1, some 10, some 20⟩] 0).1 = none := by
  constructor
  · exact C6_outside_none.1 [⟨1, some 10, some 20⟩] 10 5 0 (by decide)
      (List.pairwise_singleton _ _) rfl (by decide)
  · refine C6_outside_none.2 [⟨1, some 10, some 20⟩] 20 25 0 (by decide)
      (List.pairwise_singleton _ _) ?_ rfl (by decide)
    intro iv hiv
    have hiv2 : iv = ⟨1, some 10, some 20⟩ := by simpa using hiv
    subst hiv2
    intro a b ha hb
    have ha2 : 10 = a := by simpa using ha
    have hb2 : 20 = b := by simpa using hb
    omega

/-- C9: on an absent timestamp or an empty interval list the cursor is
returned unchanged; otherwise the input cursor is clamped into
[0, length - 1] and the returned cursor lies between the clamped value and
the list length. -/
theorem C9_cursor (ts : Option Int) (l : List Interval) (c : Int) :
    (ts = none → map_record_to_lap_index ts l c = (none, c)) ∧
    (l = [] → map_record_to_lap_index ts l c = (none, c)) ∧
    (∀ t : Int, ts = some t → l ≠ [] →
      ((clampIdx c l.length : Int) ≤ (map_record_to_lap_index ts l c).2 ∧
        (map_record_to_lap_index ts l c).2 ≤ (l.length : Int))) := by
  refine ⟨?_, ?_, ?_⟩
  · intro h; subst h; rfl
  · intro h; subst h; cases ts <;> rfl
  · intro t hts hne
    subst hts
    rw [map_record_eq_scan t l c hne]
    have hb := scanLoop_cursor_bounds t (l.drop (clampIdx c l.length))
      (clampIdx c l.length)
    have hlen : (l.drop (clampIdx c l.length)).length =
        l.length - clampIdx c l.length := List.length_drop _ _
    have hcl : clampIdx c l.length ≤ l.length := by
      have : 0 < l.length := List.length_pos.mpr hne
      unfold clampIdx
      omega
    refine ⟨?_, ?_⟩
    · show (clampIdx c l.length : Int) ≤
        ((scanLoop t (l.drop (clampIdx c l.length)) (clampIdx c l.length)).2 : Int)
      exact_mod_cast hb.1
    · show ((scanLoop t (l.drop (clampIdx c l.length)) (clampIdx c l.length)).2 : Int) ≤
        (l.length : Int)
      have h2 := hb.2
      rw [hlen] at h2
      omega

/-- C9 witness: absent timestamp, empty list, and a present timestamp with
a negative cursor clamped to 0 on a singleton list. -/
theorem C9_cursor_witness :
    map_record_to_lap_index none [⟨1, some 0, some 10⟩] 5 = (none, 5) ∧
      map_record_to_lap_index (some 7) [] (-4) = (none, -4) ∧
      ((clampIdx (-3) 1 : Int) ≤
          (map_record_to_lap_index (some 7) [⟨1, some 0, some 10⟩] (-3)).2 ∧
        (map_record_to_lap_index (some 7) [⟨1, some 0, some 10⟩] (-3)).2 ≤ 1) :=
  ⟨(C9_cursor none [⟨1, some 0, some 10⟩] 5).1 rfl,
    (C9_cursor (some 7) [] (-4)).2.1 rfl,
    (C9_cursor (some 7) [⟨1, some 0, some 10⟩] (-3)).2.2 7 rfl (by decide)⟩

/-- C10 (amended): when the interval at the scan position k has a start but
no end and the timestamp is strictly before that start, the scan does not
stop and return none at k: it advances past the open-ended interval and
continues from k+1, so the call returns exactly the result of scanning the
remaining suffix and the returned cursor is at least k+1; and provided k+1
is still a valid position, any later query made with the returned cursor
that finds a match does so at a position strictly past k. -/
theorem C10_open_skip (l : List Interval) (k : Nat) (hk : k < l.length)
    (lid : Nat) (s t : Int) (hget : l.get ⟨k, hk⟩ = ⟨lid, some s, none⟩)
    (ht : t < s) :
    map_record_to_lap_index (some t) l (k : Int) =
      ((scanLoop t (l.drop (k + 1)) (k + 1)).1,
        ((scanLoop t (l.drop (k + 1)) (k + 1)).2 : Int)) ∧
    (k : Int) + 1 ≤ (map_record_to_lap_index (some t) l (k : Int)).2 ∧
    (k + 1 < l.length → ∀ t2 : Int,
      ((map_record_to_lap_index (some t2) l
          (map_record_to_lap_index (some t) l (k : Int)).2).1.isSome →
        (k : Int) <
          (map_record_to_lap_index (some t2) l
            (map_record_to_lap_index (some t) l (k : Int)).2).2)) := by
  have hne : l ≠ [] := by intro h; subst h; simp at hk
  have hcl : clampIdx (k : Int) l.length = k := by unfold clampIdx; omega
  have hstep : map_record_to_lap_index (some t) l (k : Int) =
      ((scanLoop t (l.drop (k + 1)) (k + 1)).1,
        ((scanLoop t (l.drop (k + 1)) (k + 1)).2 : Int)) := by
    rw [map_record_eq_scan t l _ hne, hcl, List.drop_eq_getElem_cons hk]
    have hg : l[k] = ⟨lid, some s, none⟩ := hget
    rw [hg]
    have hns : ¬ s ≤ t := by omega
    simp [scanLoop, hns]
  refine ⟨hstep, ?_, ?_⟩
  · rw [hstep]
    have hb := scanLoop_cursor_bounds t (l.drop (k + 1)) (k + 1)
    show ((k : Int) + 1) ≤ ((scanLoop t (l.drop (k + 1)) (k + 1)).2 : Int)
    exact_mod_cast hb.1
  · intro hk1 t2 _hsome
    rw [hstep]
    set j2 : Int := ((scanLoop t (l.drop (k + 1)) (k + 1)).2 : Int) with hj2
    have hb := scanLoop_cursor_bounds t (l.drop (k + 1)) (k + 1)
    have hj2ge : (k : Int) + 1 ≤ j2 := by rw [hj2]; exact_mod_cast hb.1
    have hclge : k + 1 ≤ clampIdx j2 l.length := by
      unfold clampIdx
      omega
    rw [map_record_eq_scan t2 l j2 hne]
    have hb2 := scanLoop_cursor_bounds t2 (l.drop (clampIdx j2 l.length))
      (clampIdx j2 l.length)
    show (k : Int) <
      ((scanLoop t2 (l.drop (clampIdx j2 l.length)) (clampIdx j2 l.length)).2 : Int)
    have := hb2.1
    omega

/-- C10 counterexample: the final clause of the claim fails when the
open-ended interval is the last one.  With the single open-ended interval
starting at 10, a query at timestamp 5 advances past it and returns cursor
1; but the next query made with that returned cursor clamps back to
position 0 and the skipped interval matches again. -/
theorem C10_open_skip_counterexample :
    map_record_to_lap_index (some 5) [⟨1, some 10, none⟩] 0 = (none, 1) ∧
      map_record_to_lap_index (some 20) [⟨1, some 10, none⟩] 1 = (some 1, 0) := by
  decide

/-- C10 witness: an open-ended interval at position 0 followed by a bounded
one; a timestamp before the open start skips it, and later queries with the
returned cursor match only past position 0. -/
theorem C10_open_skip_witness :
    map_record_to_lap_index (some 5)
        [⟨1, some 10, none⟩, ⟨2, some 20, some 30⟩] ((0 : Nat) : Int) =
      ((scanLoop 5 ([⟨1, some 10, none⟩, ⟨2, some 20, some 30⟩].drop (0 + 1))
          (0 + 1)).1,
        ((scanLoop 5 ([⟨1, some 10, none⟩, ⟨2, some 20, some 30⟩].drop (0 + 1))
          (0 + 1)).2 : Int)) ∧
    ((0 : Nat) : Int) + 1 ≤
      (map_record_to_lap_index (some 5)
        [⟨1, some 10, none⟩, ⟨2, some 20, some 30⟩] ((0 : Nat) : Int)).2 ∧
    (0 + 1 < [(⟨1, some 10, none⟩ : Interval), ⟨2, some 20, some 30⟩].length →
      ∀ t2 : Int,
        ((map_record_to_lap_index (some t2)
            [⟨1, some 10, none⟩, ⟨2, some 20, some 30⟩]
            (map_record_to_lap_index (some 5)
              [⟨1, some 10, none⟩, ⟨2, some 20, some 30⟩]
              ((0 : Nat) : Int)).2).1.isSome →
          ((0 : Nat) : Int) <
            (map_record_to_lap_index (some t2)
              [⟨1, some 10, none⟩, ⟨2, some 20, some 30⟩]
              (map_record_to_lap_index (some 5)
                [⟨1, some 10, none⟩, ⟨2, some 20, some 30⟩]
                ((0 : Nat) : Int)).2).2)) :=
  C10_open_skip [⟨1, some 10, none⟩, ⟨2, some 20, some 30⟩] 0 (by decide)
    1 10 5 rfl (by decide)

/-! ### Claims about extraction and output -/

/-- C7: when neither the timer-time nor the elapsed-time field is numeric
and the built lap has both a start and an end, the lap duration is end
minus start, in seconds. -/
theorem C7_duration_from_bounds (m : LapMsg) (i : Nat) (s e : Int)
    (httt : m.total_timer_time.isNumeric = false)
    (htet : m.total_elapsed_time.isNumeric = false)
    (hs : (lapOfMsg i m).lap_start_time = some s)
    (he : (lapOfMsg i m).lap_end_time = some e) :
    (lapOfMsg i m).lap_duration_s = some (e - s) := by
  rcases h1 : m.total_timer_time with _ | x | _ <;>
    rcases h2 : m.total_elapsed_time with _ | y | _ <;>
      simp_all [lapOfMsg, FieldVal.isNumeric]

/-- C7 witness: start 100, non-numeric duration fields, lap timestamp 160
taken as the end; the duration is 60 seconds. -/
theorem C7_duration_from_bounds_witness :
    (lapOfMsg 0 ⟨some 100, .absent, .other, some 160, none, none, none,
        none⟩).lap_duration_s = some (160 - 100) :=
  C7_duration_from_bounds
    ⟨some 100, .absent, .other, some 160, none, none, none, none⟩ 0 100 160
    rfl rfl rfl rfl

/-- Projecting the record component out of classifyAll returns the input
stream unchanged. -/
theorem classifyAll_fst (l : List Interval) :
    ∀ (msgs : List RecordMsg) (c : Int),
      (classifyAll msgs l c).map Prod.fst = msgs
  | [], _ => rfl
  | r :: rs, c => by
    simp [classifyAll, classifyAll_fst l rs]

/-- C8: the per-sample table is the header row followed by exactly one data
row per input record message; classification pairs every record, in input
order and count, with its lap index (no drop, duplication or reorder). -/
theorem C8_row_invariant (msgs : List RecordMsg) (l : List Interval) (c : Int) :
    (classifyAll msgs l c).map Prod.fst = msgs ∧
      (write_records_csv msgs l).length = msgs.length + 1 ∧
      (write_records_csv msgs l).head? = some recordsHeader ∧
      List.tail (write_records_csv msgs l) =
        (classifyAll msgs l 0).map fun p => recordRow p.1 p.2 := by
  refine ⟨classifyAll_fst l msgs c, ?_, rfl, rfl⟩
  have hlen : (classifyAll msgs l 0).length = msgs.length := by
    have h := congrArg List.length (classifyAll_fst l msgs 0)
    simpa using h
  simp [write_records_csv, hlen]

/-- Each lap built by mkLaps carries the start time of its source message. -/
theorem mkLaps_start (msgs : List LapMsg) (lap : Lap) (h : lap ∈ mkLaps msgs) :
    ∃ m ∈ msgs, lap.lap_start_time = m.start_time := by
  unfold mkLaps at h
  obtain ⟨p, hp, hlap⟩ := List.mem_map.mp h
  have hm : p.2 ∈ msgs := List.get?_mem (by
    rw [List.get?_eq_getElem?]
    exact List.mem_enum_iff_getElem?.mp hp)
  refine ⟨p.2, hm, ?_⟩
  rw [← hlap]
  rfl

/-- The lap_index values assigned by mkLaps are exactly 1..n in order. -/
theorem mkLaps_indices (msgs : List LapMsg) :
    (mkLaps msgs).map Lap.lap_index = List.range' 1 msgs.length := by
  unfold mkLaps
  rw [List.map_map]
  have h1 : (Lap.lap_index ∘ fun p : Nat × LapMsg => lapOfMsg p.1 p.2) =
      (fun n : Nat => 1 + n) ∘ Prod.fst := by
    funext p
    simp [lapOfMsg, Nat.add_comm]
  rw [h1, ← List.map_map, List.enum_map_fst, ← List.range'_eq_map_range]

/-- When the start times of the lap messages are homogeneous (all present
or all absent), the sort key list does not mix the int sentinel with a
datetime. -/
theorem mixedStarts_false (msgs : List LapMsg)
    (hhom : (∀ m ∈ msgs, m.start_time.isSome) ∨
      (∀ m ∈ msgs, m.start_time = none)) :
    mixedStarts (mkLaps msgs) = false := by
  unfold mixedStarts
  rcases hhom with hall | hnone
  · have h1 : (mkLaps msgs).any (fun lap => lap.lap_start_time.isNone) = false := by
      rw [List.any_eq_false]
      intro lap hl
      obtain ⟨m, hm, hst⟩ := mkLaps_start msgs lap hl
      have h2 := hall m hm
      rw [hst]
      rcases hms : m.start_time with _ | v
      · rw [hms] at h2; simp at h2
      · simp
    rw [h1, Bool.false_and]
  · have h1 : (mkLaps msgs).any (fun lap => lap.lap_start_time.isSome) = false := by
      rw [List.any_eq_false]
      intro lap hl
      obtain ⟨m, hm, hst⟩ := mkLaps_start msgs lap hl
      rw [hst, hnone m hm]
      simp
    rw [h1, Bool.and_false]

/-- Filtering by a predicate whose satisfying elements mutually compare
commutes with an ordered insertion: the inserted element, when it satisfies
the predicate, lands before every satisfying element already present. -/
theorem filter_orderedInsert (p : Lap → Bool) (a : Lap)
    (hP : ∀ b : Lap, p a = true → p b = true → lapLe a b) :
    ∀ l : List Lap,
      (List.orderedInsert lapLe a l).filter p =
        if p a then a :: l.filter p else l.filter p
  | [] => by
    by_cases h : p a <;> simp [List.orderedInsert, List.filter, h]
  | b :: l => by
    rw [List.orderedInsert]
    by_cases hab : lapLe a b
    · rw [if_pos hab]
      by_cases ha : p a <;> simp [List.filter_cons, ha]
    · rw [if_neg hab]
      rw [List.filter_cons, List.filter_cons]
      by_cases hb : p b
      · have ha : p a = false := by
          rcases Bool.eq_false_or_eq_true (p a) with h | h
          · exact absurd (hP b h hb) hab
          · exact h
        simp only [hb, if_true, ha, Bool.false_eq_true, if_false]
        rw [filter_orderedInsert p a hP l]
        simp [ha]
      · simp only [hb, Bool.false_eq_true, if_false]
        rw [filter_orderedInsert p a hP l]

/-- Stability of the modelled sort: filtering by a predicate whose
satisfying elements mutually compare is unchanged by insertionSort. -/
theorem filter_insertionSort (p : Lap → Bool)
    (hP : ∀ a b : Lap, p a = true → p b = true → lapLe a b) :
    ∀ l : List Lap, (l.insertionSort lapLe).filter p = l.filter p
  | [] => rfl
  | a :: l => by
    rw [List.insertionSort,
      filter_orderedInsert p a (fun b => hP a b) (List.insertionSort lapLe l),
      filter_insertionSort p hP l]
    by_cases ha : p a <;> simp [List.filter_cons, ha]

/-- C2 (amended): when the lap messages are homogeneous in start-time
presence (all present, or all absent), collect_laps succeeds and returns
the extraction-order laps stably sorted ascending by the start-time key:
the result is sorted, is a permutation of the extraction-order laps (the
1-based extraction-order lap_index values travel with their Lap records,
never renumbered, and their multiset is exactly 1..n), and the laps whose
start time equals any given value keep their original first-seen relative
order (stability, covering duplicate start times).  A list mixing present
and absent start times instead makes the sort raise; see the
counterexample. -/
theorem C2_sort_stable (msgs : List LapMsg)
    (hhom : (∀ m ∈ msgs, m.start_time.isSome) ∨
      (∀ m ∈ msgs, m.start_time = none)) :
    collect_laps msgs = .ok ((mkLaps msgs).insertionSort lapLe) ∧
      List.Sorted lapLe ((mkLaps msgs).insertionSort lapLe) ∧
      List.Perm ((mkLaps msgs).insertionSort lapLe) (mkLaps msgs) ∧
      (∀ v : Option Int,
        ((mkLaps msgs).insertionSort lapLe).filter
            (fun lap => lap.lap_start_time == v) =
          (mkLaps msgs).filter (fun lap => lap.lap_start_time == v)) ∧
      List.Perm (((mkLaps msgs).insertionSort lapLe).map Lap.lap_index)
        (List.range' 1 msgs.length) := by
  refine ⟨?_, List.sorted_insertionSort lapLe (mkLaps msgs),
    List.perm_insertionSort lapLe (mkLaps msgs), ?_, ?_⟩
  · simp [collect_laps, mixedStarts_false msgs hhom]
  · intro v
    refine filter_insertionSort _ ?_ (mkLaps msgs)
    intro a b ha hb
    have ha2 : a.lap_start_time = v := by simpa using ha
    have hb2 : b.lap_start_time = v := by simpa using hb
    unfold lapLe
    rw [ha2, hb2]
  · have hperm := (List.perm_insertionSort lapLe (mkLaps msgs)).map Lap.lap_index
    rw [mkLaps_indices msgs] at hperm
    exact hperm

/-- C2 counterexample: an input mixing a present and an absent start time
does not yield a sorted lap sequence at all: the sort key list mixes a
datetime with the int sentinel 0 and collect_laps raises. -/
theorem C2_sort_stable_counterexample :
    collect_laps [⟨some 100, .num 60, .absent, none, none, none, none, none⟩,
      ⟨none, .absent, .absent, none, none, none, none, none⟩] =
      Except.error () := rfl

/-- C2 witness: three laps with starts 200, 100, 100 (duplicate starts):
the sort succeeds and the two laps sharing start 100 keep their first-seen
order. -/
theorem C2_sort_stable_witness :
    collect_laps [⟨some 200, .num 10, .absent, none, none, none, none, none⟩,
        ⟨some 100, .num 60, .absent, none, none, none, none, none⟩,
        ⟨some 100, .absent, .absent, some 160, none, none, none, none⟩] =
      .ok ((mkLaps [⟨some 200, .num 10, .absent, none, none, none, none, none⟩,
        ⟨some 100, .num 60, .absent, none, none, none, none, none⟩,
        ⟨some 100, .absent, .absent, some 160, none, none, none,
          none⟩]).insertionSort lapLe) ∧
      ((mkLaps [⟨some 200, .num 10, .absent, none, none, none, none, none⟩,
        ⟨some 100, .num 60, .absent, none, none, none, none, none⟩,
        ⟨some 100, .absent, .absent, some 160, none, none, none,
          none⟩]).insertionSort lapLe).filter
          (fun lap => lap.lap_start_time == some 100) =
        (mkLaps [⟨some 200, .num 10, .absent, none, none, none, none, none⟩,
          ⟨some 100, .num 60, .absent, none, none, none, none, none⟩,
          ⟨some 100, .absent, .absent, some 160, none, none, none,
            none⟩]).filter (fun lap => lap.lap_start_time == some 100) :=
  have h := C2_sort_stable
    [⟨some 200, .num 10, .absent, none, none, none, none, none⟩,
      ⟨some 100, .num 60, .absent, none, none, none, none, none⟩,
      ⟨some 100, .absent, .absent, some 160, none, none, none, none⟩]
    (Or.inl (by decide))
  ⟨h.1, h.2.2.2.1 (some 100)⟩

/-- C3: evaluation at the failing input.  A lap message lacking start_time
(all optional fields absent) alongside a lap message that has one makes
collect_laps fail: the sort key (lap_start_time or 0) compares the int
sentinel 0 with a datetime and Python raises TypeError, so the run does
not complete normally and the absent field is not degraded gracefully. -/
theorem C3_missing_field_fails :
    collect_laps [⟨none, .absent, .absent, none, none, none, none, none⟩,
      ⟨some 100, .num 60, .absent, none, none, none, none, none⟩] =
      Except.error () := rfl

end FitToCSV
